import Mathlib

/-!
Verification of the rusty_cmd command-interpreter core (src/src/cmd.rs,
src/src/command_handler.rs, src/src/handlers.rs).

The embedding works over lists of characters for the tokenizer
(parse_cmd / split_args) and over an explicit state record for the
registry (Cmd.handles) and the dispatch loop (Cmd::run).  Machine
strings are modelled by Lean strings; the output sink records the bytes
written and carries a behaviour telling which write / flush attempts
fail, which covers the mock sinks used by the repository's tests
(always-ok Vec, StdoutWriteErr, StdoutFlushErr).
-/

/-- Whitespace test used by str::trim and split_whitespace, restricted to
the ASCII whitespace characters that can occur in the inputs of this
development (Rust uses the full Unicode White_Space property; the extra
code points play no role here). -/
def wsChar (c : Char) : Bool :=
  c = ' ' || c = '\t' || c = '\n' || c = '\r'

/-- Model of str::trim: drop whitespace from both ends. -/
def trimChars (l : List Char) : List Char :=
  ((l.dropWhile wsChar).reverse.dropWhile wsChar).reverse

/-- Model of line.find(' ').unwrap_or(line.len()): index of the first
space character, or the length when there is none. -/
def firstSpaceIdx : List Char → Nat
  | [] => 0
  | c :: rest => if c = ' ' then 0 else firstSpaceIdx rest + 1

/-- Model of fn parse_cmd (src/src/cmd.rs): trim the line, cut at the
first space, trim the remainder. -/
def parse_cmdL (line : List Char) : List Char × List Char :=
  let t := trimChars line
  let command := t.take (firstSpaceIdx t)
  let args := trimChars (t.drop command.length)
  (command, args)

/-- Accumulator-based model of str::split_whitespace: maximal runs of
non-whitespace characters, separators collapsed. -/
def splitWsAux : List Char → List Char → List (List Char)
  | [], acc => if acc.isEmpty then [] else [acc.reverse]
  | c :: rest, acc =>
    if wsChar c then
      (if acc.isEmpty then splitWsAux rest [] else acc.reverse :: splitWsAux rest [])
    else splitWsAux rest (c :: acc)

/-- Split a character list on runs of whitespace. -/
def splitWs (l : List Char) : List (List Char) := splitWsAux l []

/-- Model of fn split_args (src/src/cmd.rs):
args.split_whitespace().map(trim).collect(). -/
def split_argsL (args : List Char) : List (List Char) :=
  (splitWs args).map trimChars

/-- The tokenizer of the spec: command plus argument tokens. -/
def tokenizeL (line : List Char) : List Char × List (List Char) :=
  let p := parse_cmdL line
  (p.1, split_argsL p.2)

/-- Join a command and its argument tokens with single spaces (the
normalised line of claim C9). -/
def joinSp : List (List Char) → List Char
  | [] => []
  | [t] => t
  | t :: t2 :: rest => t ++ ' ' :: joinSp (t2 :: rest)

/-- String-level trim. -/
def trimS (s : String) : String := String.mk (trimChars s.data)

/-- String-level parse_cmd. -/
def parse_cmd (s : String) : String × String :=
  let p := parse_cmdL s.data
  (String.mk p.1, String.mk p.2)

/-- String-level split_args. -/
def split_args (s : String) : List String :=
  (split_argsL s.data).map String.mk

/-- String-level tokenizer. -/
def tokenize (s : String) : String × List String :=
  let p := tokenizeL s.data
  (String.mk p.1, (p.2).map String.mk)

/-- An io::Error value: its kind and message, carried verbatim. -/
structure IoError where
  kind : String
  msg : String
deriving DecidableEq

/-- Model of enum CommandResult (src/src/command_handler.rs). -/
inductive CommandResult where
  | Continue
  | Break
deriving DecidableEq

/-- An output sink: the bytes recorded so far plus a behaviour saying
which write payloads and whether flushes fail.  This covers the
repository's test sinks (a Vec that never fails, StdoutWriteErr which
fails every write, StdoutFlushErr which fails every flush). -/
structure Sink where
  buf : String
  writeErr : String → Option IoError
  flushErr : Option IoError

/-- Model of io::Write::write_all on the sink. -/
def Sink.write (s : Sink) (t : String) : Except IoError Sink :=
  match s.writeErr t with
  | some e => .error e
  | none => .ok { s with buf := s.buf ++ t }

/-- Model of io::Write::flush on the sink. -/
def Sink.flush (s : Sink) : Except IoError Sink :=
  match s.flushErr with
  | some e => .error e
  | none => .ok s

/-- Model of the CommandHandler capability
(fn execute(&self, output: &mut W, args: &[&str]) -> CommandResult):
a handler receives the sink and the argument tokens and returns the
updated sink together with a Continue/Break signal.  The signature has
no error channel, exactly as the Rust trait. -/
def Handler : Type := Sink → List String → Sink × CommandResult

/-- Model of struct Cmd (src/src/cmd.rs): the handler registry plus the
input source (remaining read results) and the output sink. -/
structure Cmd where
  handles : List (String × Handler)
  stdin : List (Except IoError String)
  stdout : Sink

/-- Model of HashMap::get on the registry (keys are unique because
add_cmd never inserts a duplicate). -/
def lookupH : List (String × Handler) → String → Option Handler
  | [], _ => none
  | (n, h) :: rest, k => if n = k then some h else lookupH rest k

/-- Model of BufRead::read_line: the next queued result, or Ok "" at
end of input (read_line returns Ok(0) leaving the buffer empty). -/
def readLine : List (Except IoError String) → Except IoError String × List (Except IoError String)
  | [] => (.ok "", [])
  | r :: rest => (r, rest)

/-- Model of Cmd::add_cmd (src/src/cmd.rs lines 86-103): on a fresh
name insert the handler; on a duplicate name write the warning
diagnostic to the sink (propagating a write failure) and leave the
registry unchanged.  Returns the updated state and the io::Result. -/
def add_cmd (st : Cmd) (name : String) (handler : Handler) : Cmd × Except IoError Unit :=
  match lookupH st.handles name with
  | some _ =>
    match Sink.write st.stdout ("Warning: Command with handle " ++ name ++ " already exists.") with
    | .error e => (st, .error e)
    | .ok sk => ({ st with stdout := sk }, .ok ())
  | none => ({ st with handles := st.handles ++ [(name, handler)] }, .ok ())

/-- The loop-owned I/O operations of Cmd::run that can fail. -/
inductive IoOp where
  | promptWrite
  | flushOp
  | readOp
  | diagWrite
deriving DecidableEq

/-- Events of one run of the dispatch loop, in order. -/
inductive Ev where
  | prompted
  | flushed
  | readLn (raw : String)
  | emptyLn
  | noCmd (command : String)
  | invoked (command : String) (sig : CommandResult)
  | ioFail (op : IoOp) (e : IoError)
deriving DecidableEq

/-- Outcome of a run: normal return, an io::Error, or fuel exhaustion
(the model's stand-in for the loop not having terminated yet). -/
inductive RunResult where
  | ok
  | err (e : IoError)
  | fuelOut
deriving DecidableEq

/-- Model of Cmd::run (src/src/cmd.rs lines 39-70), one iteration per
unit of fuel: write the prompt, flush, read a line, trim it; an empty
line just loops; otherwise parse it, look the command up, either invoke
the handler (Break ends the loop with success) or write the
no-command diagnostic.  Every question-mark site of the source becomes
an error return.  The returned event list records the iterations. -/
def run : Nat → Cmd → Cmd × RunResult × List Ev
  | 0, st => (st, .fuelOut, [])
  | fuel + 1, st =>
    match Sink.write st.stdout "(cmd) " with
    | .error e => (st, .err e, [.ioFail .promptWrite e])
    | .ok sk =>
      match Sink.flush sk with
      | .error e => ({ st with stdout := sk }, .err e, [.prompted, .ioFail .flushOp e])
      | .ok sk2 =>
        match readLine st.stdin with
        | (.error e, rest) =>
          ({ st with stdout := sk2, stdin := rest }, .err e,
            [.prompted, .flushed, .ioFail .readOp e])
        | (.ok raw, rest) =>
          let inputs := trimS raw
          if inputs = "" then
            let r := run fuel { st with stdout := sk2, stdin := rest }
            (r.1, r.2.1, .prompted :: .flushed :: .readLn raw :: .emptyLn :: r.2.2)
          else
            let command := (parse_cmd inputs).1
            let args := split_args (parse_cmd inputs).2
            match lookupH st.handles command with
            | some handler =>
              match handler sk2 args with
              | (sk3, .Break) =>
                ({ st with stdout := sk3, stdin := rest }, .ok,
                  [.prompted, .flushed, .readLn raw, .invoked command .Break])
              | (sk3, .Continue) =>
                let r := run fuel { st with stdout := sk3, stdin := rest }
                (r.1, r.2.1,
                  .prompted :: .flushed :: .readLn raw :: .invoked command .Continue :: r.2.2)
            | none =>
              match Sink.write sk2 ("No command " ++ command ++ "\n") with
              | .error e =>
                ({ st with stdout := sk2, stdin := rest }, .err e,
                  [.prompted, .flushed, .readLn raw, .ioFail .diagWrite e])
              | .ok sk3 =>
                let r := run fuel { st with stdout := sk3, stdin := rest }
                (r.1, r.2.1, .prompted :: .flushed :: .readLn raw :: .noCmd command :: r.2.2)

/-- The ready-to-use Quit handler (src/src/handlers.rs): returns Break,
writes nothing. -/
def quitHandler : Handler := fun sk _ => (sk, CommandResult.Break)

/-- The Greeting test handler (src/src/cmd.rs tests): writes
"Hello there!" and continues.  The source unwraps the write, so on a
failed write it panics — an outcome no CommandResult value represents.
Every use of this definition pairs it with a sink that accepts the
payload, so the error branch below is unreachable there; it exists
only because a Lean function must be total. -/
def greetHandler : Handler := fun sk _ =>
  match Sink.write sk "Hello there!" with
  | .ok sk2 => (sk2, CommandResult.Continue)
  | .error _ => (sk, CommandResult.Continue)

/-- A handler that attempts to write "Hello there!" and deliberately
ignores the write result, continuing either way: a legal implementation
of the CommandHandler trait (whose execute returns only a
CommandResult), written as a Rust handler would be with
`let _ = output.write(b"Hello there!");`.  It is not the repository's
Greeting handler (which unwraps and would panic); it exists to witness
what the trait permits. -/
def ignoreErrGreet : Handler := fun sk _ =>
  match Sink.write sk "Hello there!" with
  | .ok sk2 => (sk2, CommandResult.Continue)
  | .error _ => (sk, CommandResult.Continue)

/-- A sink that never fails, like the Vec sink of the tests. -/
def okSink : Sink := { buf := "", writeErr := fun _ => none, flushErr := none }

/-- The io::Error produced by the StdoutWriteErr test sink. -/
def errWrite : IoError := { kind := "Other", msg := "failed on write" }

/-- The io::Error produced by the StdinAlwaysErr test reader. -/
def errRead : IoError := { kind := "Other", msg := "failed on read" }

/-- A sink that fails every write, like StdoutWriteErr (flushes succeed). -/
def failWriteSink : Sink :=
  { buf := "", writeErr := fun _ => some errWrite, flushErr := none }

/-- A sink that rejects exactly the payload "Hello there!" and accepts
every other write: a legal io::Write implementation that makes the
greet handler's own write fail while all loop-owned writes succeed. -/
def helloFailSink : Sink :=
  { buf := "",
    writeErr := fun t => if t = "Hello there!" then some errWrite else none,
    flushErr := none }

/-- The state of the repository's test_run test: greet and quit
registered, the input lines greet, bogus, quit, an always-ok sink. -/
def c4State : Cmd :=
  { handles := [("greet", greetHandler), ("quit", quitHandler)],
    stdin := [.ok "greet\n", .ok "bogus\n", .ok "quit\n"],
    stdout := okSink }

/-- A state registering the error-ignoring greet handler over the sink
that rejects its payload: the handler's own write fails there while
every loop-owned write and flush succeeds. -/
def c3State : Cmd :=
  { handles := [("greet", ignoreErrGreet), ("quit", quitHandler)],
    stdin := [.ok "greet\n", .ok "quit\n"],
    stdout := helloFailSink }

/-- A registry state with greet already registered, over a sink that
never fails. -/
def regState : Cmd :=
  { handles := [("greet", greetHandler)], stdin := [], stdout := okSink }

/-- The same registry over the always-failing StdoutWriteErr sink. -/
def regStateFail : Cmd :=
  { handles := [("greet", greetHandler)], stdin := [], stdout := failWriteSink }

/-- A handler with behaviour observably different from greetHandler,
used to attempt a duplicate registration. -/
def shoutHandler : Handler := fun sk _ =>
  match Sink.write sk "SECOND HANDLER" with
  | .ok sk2 => (sk2, CommandResult.Continue)
  | .error _ => (sk, CommandResult.Continue)

/-- A state whose input source errors on the first read, like the
StdinAlwaysErr test. -/
def readErrState : Cmd :=
  { handles := [("greet", greetHandler), ("quit", quitHandler)],
    stdin := [.error errRead],
    stdout := okSink }

/-- The sink of c3State after the prompt has been written. -/
def c3SinkAfter : Sink := { helloFailSink with buf := "(cmd) " }

/-- The state left after the first iteration of the c3State run. -/
def c3StateAfter : Cmd :=
  { handles := c3State.handles, stdin := [.ok "quit\n"], stdout := c3SinkAfter }

/-! ### Helper lemmas about whitespace, trimming, splitting -/

theorem dropWhile_ws_eq_nil_iff (l : List Char) :
    l.dropWhile wsChar = [] ↔ ∀ c ∈ l, wsChar c = true :=
  List.dropWhile_eq_nil_iff

theorem dropWhile_ws_head {l : List Char} {x : Char} {xs : List Char}
    (h : l.dropWhile wsChar = x :: xs) : wsChar x = false := by
  induction l with
  | nil => simp [List.dropWhile] at h
  | cons c rest ih =>
    by_cases hc : wsChar c = true
    · rw [List.dropWhile_cons_of_pos hc] at h; exact ih h
    · rw [List.dropWhile_cons_of_neg hc] at h
      cases h; simpa using hc

theorem dropWhile_ws_of_head {x : Char} {xs : List Char} (h : wsChar x = false) :
    (x :: xs).dropWhile wsChar = x :: xs := by
  simp [List.dropWhile, h]

theorem mem_dropWhile_ws {l : List Char} {c : Char}
    (h : c ∈ l.dropWhile wsChar) : c ∈ l := by
  induction l with
  | nil => simp [List.dropWhile] at h
  | cons a rest ih =>
    by_cases ha : wsChar a = true
    · rw [List.dropWhile_cons_of_pos ha] at h
      exact List.mem_cons_of_mem a (ih h)
    · rwa [List.dropWhile_cons_of_neg ha] at h

theorem trim_eq_nil_iff (l : List Char) :
    trimChars l = [] ↔ ∀ c ∈ l, wsChar c = true := by
  unfold trimChars
  constructor
  · intro h c hc
    rw [List.reverse_eq_nil_iff, dropWhile_ws_eq_nil_iff] at h
    by_cases hdw : c ∈ l.dropWhile wsChar
    · exact h c (by simpa using hdw)
    · by_contra hcw
      have hnil : l.dropWhile wsChar ≠ [] := by
        intro hn
        rw [dropWhile_ws_eq_nil_iff] at hn
        exact absurd (hn c hc) hcw
      have hall : ∀ c ∈ l.dropWhile wsChar, wsChar c = true := by
        intro d hd; exact h d (by simpa using hd)
      cases hx : l.dropWhile wsChar with
      | nil => exact hnil hx
      | cons x xs =>
        have := dropWhile_ws_head hx
        have := hall x (by rw [hx]; exact List.mem_cons_self x xs)
        simp_all
  · intro h
    have h1 : l.dropWhile wsChar = [] := by
      rw [dropWhile_ws_eq_nil_iff]; exact h
    simp [h1, List.dropWhile]

theorem trim_head_not_ws {l : List Char} {x : Char} {xs : List Char}
    (h : trimChars l = x :: xs) : wsChar x = false := by
  unfold trimChars at h
  have h2 : ((l.dropWhile wsChar).reverse.dropWhile wsChar) = (x :: xs).reverse := by
    rw [← h, List.reverse_reverse]
  have hx : x ∈ (l.dropWhile wsChar).reverse.dropWhile wsChar := by
    rw [h2]; simp
  have hx2 : x ∈ l.dropWhile wsChar := by
    have := mem_dropWhile_ws hx
    simpa using this
  cases hd : l.dropWhile wsChar with
  | nil => rw [hd] at hx2; simp at hx2
  | cons a rest =>
    have ha : wsChar a = false := dropWhile_ws_head hd
    rw [hd] at hx2
    rcases List.mem_cons.mp hx2 with h | h
    · rwa [h]
    · -- x sits after the head of the left-trimmed list; use that the
      -- right trim only removes a suffix, so the head is preserved
      -- when the result is nonempty.
      have hpre : ∃ q, (a :: rest).reverse = q ++ ((a :: rest).reverse.dropWhile wsChar) := by
        exact ⟨List.takeWhile wsChar (a :: rest).reverse,
          (List.takeWhile_append_dropWhile wsChar (a :: rest).reverse).symm⟩
      rcases hpre with ⟨q, hq⟩
      rw [hd] at h2
      have : (a :: rest).reverse = q ++ (x :: xs).reverse := by rw [hq, h2]
      have hrev : a :: rest = (x :: xs).reverse.reverse ++ q.reverse := by
        have := congrArg List.reverse this
        simpa [List.reverse_append] using this
      rw [List.reverse_reverse] at hrev
      have : a = x := by
        have := congrArg (fun t => t.head?) hrev
        simpa using this
      rw [← this]; exact ha

theorem trim_rev_head_not_ws {l : List Char} {y : Char} {ys : List Char}
    (h : (trimChars l).reverse = y :: ys) : wsChar y = false := by
  unfold trimChars at h
  rw [List.reverse_reverse] at h
  exact dropWhile_ws_head h

theorem trim_of_nonws_ends {l : List Char} {x y : Char} {xs ys : List Char}
    (hl : l = x :: xs) (hx : wsChar x = false)
    (hr : l.reverse = y :: ys) (hy : wsChar y = false) : trimChars l = l := by
  unfold trimChars
  rw [hl, dropWhile_ws_of_head hx, ← hl, hr, dropWhile_ws_of_head hy, ← hr,
    List.reverse_reverse]

theorem trim_of_all_nonws {l : List Char} (h : ∀ c ∈ l, wsChar c = false) :
    trimChars l = l := by
  cases l with
  | nil => simp [trimChars]
  | cons x xs =>
    cases hr : (x :: xs).reverse with
    | nil => simp at hr
    | cons y ys =>
      have hx : wsChar x = false := h x (List.mem_cons_self x xs)
      have hy : wsChar y = false := by
        have hmem : y ∈ (x :: xs).reverse := by rw [hr]; exact List.mem_cons_self y ys
        exact h y (List.mem_reverse.mp hmem)
      exact trim_of_nonws_ends rfl hx hr hy

theorem trim_idem (l : List Char) : trimChars (trimChars l) = trimChars l := by
  cases hl : trimChars l with
  | nil => simp [trimChars]
  | cons x xs =>
    cases hr : (x :: xs).reverse with
    | nil => simp at hr
    | cons y ys =>
      have hx : wsChar x = false := trim_head_not_ws hl
      have hy : wsChar y = false := by
        apply trim_rev_head_not_ws (l := l)
        rw [hl, hr]
      exact trim_of_nonws_ends rfl hx hr hy

theorem firstSpaceIdx_le_length (l : List Char) : firstSpaceIdx l ≤ l.length := by
  induction l with
  | nil => simp [firstSpaceIdx]
  | cons c rest ih =>
    by_cases hc : c = ' '
    · simp [firstSpaceIdx, hc]
    · simp [firstSpaceIdx, hc]
      omega

theorem firstSpaceIdx_of_no_space {l : List Char} (h : ∀ c ∈ l, c ≠ ' ') :
    firstSpaceIdx l = l.length := by
  induction l with
  | nil => simp [firstSpaceIdx]
  | cons c rest ih =>
    have hc : c ≠ ' ' := h c (List.mem_cons_self c rest)
    simp [firstSpaceIdx, hc]
    exact ih (fun d hd => h d (List.mem_cons_of_mem c hd))

theorem firstSpaceIdx_append_space {u : List Char} (v : List Char)
    (h : ∀ c ∈ u, c ≠ ' ') : firstSpaceIdx (u ++ ' ' :: v) = u.length := by
  induction u with
  | nil => simp [firstSpaceIdx]
  | cons c rest ih =>
    have hc : c ≠ ' ' := h c (List.mem_cons_self c rest)
    simp [firstSpaceIdx, hc]
    exact ih (fun d hd => h d (List.mem_cons_of_mem c hd))

theorem take_firstSpaceIdx_no_space (l : List Char) :
    ∀ c ∈ l.take (firstSpaceIdx l), c ≠ ' ' := by
  induction l with
  | nil => simp [firstSpaceIdx]
  | cons a rest ih =>
    by_cases ha : a = ' '
    · simp [firstSpaceIdx, ha]
    · simp only [firstSpaceIdx, ha, if_false, List.take_succ_cons]
      intro c hc
      rcases List.mem_cons.mp hc with h | h
      · rw [h]; exact ha
      · exact ih c h

theorem splitWsAux_nonws {c : Char} (l acc : List Char) (h : wsChar c = false) :
    splitWsAux (c :: l) acc = splitWsAux l (c :: acc) := by
  simp [splitWsAux, h]

theorem splitWsAux_ws_nil {c : Char} (l : List Char) (h : wsChar c = true) :
    splitWsAux (c :: l) [] = splitWsAux l [] := by
  simp [splitWsAux, h]

theorem splitWsAux_ws_cons {c a : Char} (l acc : List Char) (h : wsChar c = true) :
    splitWsAux (c :: l) (a :: acc) = (a :: acc).reverse :: splitWsAux l [] := by
  simp [splitWsAux, h]

theorem splitWsAux_append_nonws {u : List Char} (l acc : List Char)
    (h : ∀ c ∈ u, wsChar c = false) :
    splitWsAux (u ++ l) acc = splitWsAux l (u.reverse ++ acc) := by
  induction u generalizing acc with
  | nil => simp
  | cons c rest ih =>
    have hc : wsChar c = false := h c (List.mem_cons_self c rest)
    rw [List.cons_append, splitWsAux_nonws _ _ hc,
      ih (c :: acc) (fun d hd => h d (List.mem_cons_of_mem c hd))]
    simp

theorem splitWsAux_acc_ne_nil (l : List Char) (a : Char) (acc : List Char) :
    splitWsAux l (a :: acc) ≠ [] := by
  induction l generalizing a acc with
  | nil => simp [splitWsAux]
  | cons c rest ih =>
    by_cases hc : wsChar c = true
    · rw [splitWsAux_ws_cons _ _ hc]; simp
    · rw [splitWsAux_nonws _ _ (by simpa using hc)]
      exact ih c (a :: acc)

theorem splitWsAux_chunks (l : List Char) :
    ∀ acc, (∀ c ∈ acc, wsChar c = false) →
      ∀ t ∈ splitWsAux l acc, t ≠ [] ∧ ∀ c ∈ t, wsChar c = false := by
  induction l with
  | nil =>
    intro acc hacc t ht
    cases acc with
    | nil => simp [splitWsAux] at ht
    | cons a as =>
      simp [splitWsAux] at ht
      subst ht
      refine ⟨by simp, ?_⟩
      intro c hc
      have hc2 : c ∈ (a :: as).reverse := by rw [List.reverse_cons]; exact hc
      exact hacc c (List.mem_reverse.mp hc2)
  | cons c rest ih =>
    intro acc hacc t ht
    by_cases hc : wsChar c = true
    · cases acc with
      | nil =>
        rw [splitWsAux_ws_nil _ hc] at ht
        exact ih [] (by simp) t ht
      | cons a as =>
        rw [splitWsAux_ws_cons _ _ hc] at ht
        rcases List.mem_cons.mp ht with h | h
        · subst h
          refine ⟨by simp, ?_⟩
          intro d hd
          exact hacc d (List.mem_reverse.mp hd)
        · exact ih [] (by simp) t h
    · rw [splitWsAux_nonws _ _ (by simpa using hc)] at ht
      refine ih (c :: acc) ?_ t ht
      intro d hd
      rcases List.mem_cons.mp hd with h | h
      · rw [h]; simpa using hc
      · exact hacc d h

theorem splitWs_chunks (l : List Char) :
    ∀ t ∈ splitWs l, t ≠ [] ∧ ∀ c ∈ t, wsChar c = false :=
  splitWsAux_chunks l [] (by simp)

theorem splitWs_join (toks : List (List Char))
    (h : ∀ t ∈ toks, t ≠ [] ∧ ∀ c ∈ t, wsChar c = false) :
    splitWs (joinSp toks) = toks := by
  induction toks with
  | nil => simp [joinSp, splitWs, splitWsAux]
  | cons t rest ih =>
    have ht : t ≠ [] ∧ ∀ c ∈ t, wsChar c = false := h t (List.mem_cons_self t rest)
    cases rest with
    | nil =>
      show splitWs (joinSp [t]) = [t]
      rw [show joinSp [t] = t from rfl]
      unfold splitWs
      rw [show t = t ++ ([] : List Char) from by simp,
        splitWsAux_append_nonws _ _ ht.2]
      cases hte : t.reverse with
      | nil => simp at hte; exact absurd hte ht.1
      | cons a as =>
        simp [splitWsAux, hte]
        rw [← List.reverse_cons, ← hte, List.reverse_reverse]
    | cons t2 rest2 =>
      show splitWs (joinSp (t :: t2 :: rest2)) = t :: t2 :: rest2
      rw [show joinSp (t :: t2 :: rest2) = t ++ ' ' :: joinSp (t2 :: rest2) from rfl]
      unfold splitWs
      rw [splitWsAux_append_nonws _ _ ht.2]
      cases hte : t.reverse with
      | nil => simp at hte; exact absurd hte ht.1
      | cons a as =>
        rw [List.append_nil, splitWsAux_ws_cons _ _ (by simp [wsChar])]
        have : (a :: as).reverse = t := by rw [← hte, List.reverse_reverse]
        rw [this]
        have := ih (fun u hu => h u (List.mem_cons_of_mem t hu))
        unfold splitWs at this
        rw [this]

theorem joinSp_cons_cons (t t2 : List Char) (rest : List (List Char)) :
    joinSp (t :: t2 :: rest) = t ++ ' ' :: joinSp (t2 :: rest) := rfl

theorem snoc_decomp {α : Type} {l : List α} (h : l ≠ []) : ∃ I a, l = I ++ [a] := by
  rcases List.eq_nil_or_concat l with h0 | ⟨L, b, hL⟩
  · exact absurd h0 h
  · exact ⟨L, b, by rw [hL, List.concat_eq_append]⟩

theorem map_eq_self_of {α : Type} {f : α → α} {l : List α}
    (h : ∀ a ∈ l, f a = a) : l.map f = l := by
  induction l with
  | nil => rfl
  | cons a rest ih =>
    rw [List.map_cons, h a (List.mem_cons_self a rest),
      ih (fun b hb => h b (List.mem_cons_of_mem a hb))]

theorem trim_cons_ws {w : Char} (l : List Char) (h : wsChar w = true) :
    trimChars (w :: l) = trimChars l := by
  unfold trimChars
  rw [List.dropWhile_cons_of_pos h]

theorem joinSp_snoc_rev (toks : List (List Char)) (tl : List Char)
    (h1 : tl ≠ []) (h2 : ∀ c ∈ tl, wsChar c = false) :
    ∃ y ys, (joinSp (toks ++ [tl])).reverse = y :: ys ∧ wsChar y = false := by
  induction toks with
  | nil =>
    cases hte : tl.reverse with
    | nil => simp at hte; exact absurd hte h1
    | cons y ys =>
      refine ⟨y, ys, ?_, ?_⟩
      · show (joinSp [tl]).reverse = y :: ys
        rw [show joinSp [tl] = tl from rfl, hte]
      · have : y ∈ tl.reverse := by rw [hte]; exact List.mem_cons_self y ys
        exact h2 y (List.mem_reverse.mp this)
  | cons t toks2 ih =>
    rcases ih with ⟨y, ys, hy, hyws⟩
    have hne : toks2 ++ [tl] ≠ [] := by simp
    cases hu : toks2 ++ [tl] with
    | nil => exact absurd hu hne
    | cons u us =>
      refine ⟨y, ys ++ ' ' :: t.reverse, ?_, hyws⟩
      show (joinSp (t :: (toks2 ++ [tl]))).reverse = y :: (ys ++ ' ' :: t.reverse)
      rw [hu, joinSp_cons_cons, ← hu]
      rw [List.reverse_append, List.reverse_cons, hy]
      simp

theorem tokenizeL_joinSp (cc : List Char) (aa : List (List Char))
    (h1 : ∀ ch ∈ cc, ch ≠ ' ')
    (h2 : ∃ x cs, cc = x :: cs ∧ wsChar x = false)
    (h3 : ∀ a ∈ aa, a ≠ [] ∧ ∀ ch ∈ a, wsChar ch = false)
    (h4 : aa = [] → trimChars cc = cc) :
    tokenizeL (joinSp (cc :: aa)) = (cc, aa) := by
  cases aa with
  | nil =>
    have htc : trimChars cc = cc := h4 rfl
    have hfs : firstSpaceIdx cc = cc.length := firstSpaceIdx_of_no_space h1
    show tokenizeL (joinSp [cc]) = (cc, [])
    rw [show joinSp [cc] = cc from rfl]
    simp only [tokenizeL, parse_cmdL, split_argsL]
    rw [htc, hfs, List.take_length, List.drop_length]
    simp [trimChars, splitWs, splitWsAux, List.dropWhile]
  | cons a1 rest =>
    obtain ⟨x, cs, hcc, hx⟩ := h2
    obtain ⟨I, an, hIa⟩ := snoc_decomp (l := a1 :: rest) (by simp)
    have hanMem : an ∈ a1 :: rest := by rw [hIa]; simp
    have hanP := h3 an hanMem
    have hJoin : joinSp (cc :: a1 :: rest) = cc ++ ' ' :: joinSp (a1 :: rest) :=
      joinSp_cons_cons cc a1 rest
    have hrev : ∃ y ys, (joinSp ((cc :: I) ++ [an])).reverse = y :: ys ∧ wsChar y = false :=
      joinSp_snoc_rev (cc :: I) an hanP.1 hanP.2
    have hIa2 : (cc :: I) ++ [an] = cc :: a1 :: rest := by rw [List.cons_append, ← hIa]
    rw [hIa2] at hrev
    obtain ⟨y, ys, hyrev, hyws⟩ := hrev
    have hhead : joinSp (cc :: a1 :: rest) = x :: (cs ++ ' ' :: joinSp (a1 :: rest)) := by
      rw [hJoin, hcc]; rfl
    have htr : trimChars (joinSp (cc :: a1 :: rest)) = joinSp (cc :: a1 :: rest) :=
      trim_of_nonws_ends hhead hx hyrev hyws
    have hfs : firstSpaceIdx (cc ++ ' ' :: joinSp (a1 :: rest)) = cc.length :=
      firstSpaceIdx_append_space (joinSp (a1 :: rest)) h1
    have htake : (cc ++ ' ' :: joinSp (a1 :: rest)).take cc.length = cc :=
      List.take_left cc (' ' :: joinSp (a1 :: rest))
    have hdrop : (cc ++ ' ' :: joinSp (a1 :: rest)).drop cc.length = ' ' :: joinSp (a1 :: rest) :=
      List.drop_left cc (' ' :: joinSp (a1 :: rest))
    have ha1P := h3 a1 (List.mem_cons_self a1 rest)
    obtain ⟨x1, a1t, ha1⟩ : ∃ x1 a1t, a1 = x1 :: a1t := by
      cases a1 with
      | nil => exact absurd rfl ha1P.1
      | cons z zs => exact ⟨z, zs, rfl⟩
    have hx1 : wsChar x1 = false :=
      ha1P.2 x1 (by rw [ha1]; exact List.mem_cons_self x1 a1t)
    have hJshape : ∃ u, joinSp (a1 :: rest) = x1 :: u := by
      cases rest with
      | nil => exact ⟨a1t, by rw [show joinSp [a1] = a1 from rfl, ha1]⟩
      | cons r2 rs =>
        refine ⟨a1t ++ ' ' :: joinSp (r2 :: rs), ?_⟩
        rw [joinSp_cons_cons, ha1]; rfl
    obtain ⟨u, hJu⟩ := hJshape
    have hrevJ : ∃ y2 ys2, (joinSp (I ++ [an])).reverse = y2 :: ys2 ∧ wsChar y2 = false :=
      joinSp_snoc_rev I an hanP.1 hanP.2
    rw [← hIa] at hrevJ
    obtain ⟨y2, ys2, hy2, hy2ws⟩ := hrevJ
    have htrJ : trimChars (joinSp (a1 :: rest)) = joinSp (a1 :: rest) :=
      trim_of_nonws_ends hJu hx1 hy2 hy2ws
    have htrA : trimChars (' ' :: joinSp (a1 :: rest)) = joinSp (a1 :: rest) := by
      rw [trim_cons_ws _ (by simp [wsChar]), htrJ]
    have hsplit : splitWs (joinSp (a1 :: rest)) = a1 :: rest := splitWs_join _ h3
    have hmap : (a1 :: rest).map trimChars = a1 :: rest :=
      map_eq_self_of (fun a ha => trim_of_all_nonws ((h3 a ha).2))
    show tokenizeL (joinSp (cc :: a1 :: rest)) = (cc, a1 :: rest)
    simp only [tokenizeL, parse_cmdL, split_argsL]
    rw [htr, hJoin, hfs, htake, hdrop, htrA, hsplit, hmap]

theorem tokenizeL_shape (s : List Char) :
    tokenizeL s = ((trimChars s).take (firstSpaceIdx (trimChars s)),
      (splitWs (trimChars ((trimChars s).drop
        (((trimChars s).take (firstSpaceIdx (trimChars s))).length)))).map trimChars) := rfl

/-- Claim C9: the tokenizer is idempotent on already-normalized input:
whenever tokenizing a line yields command c and argument tokens args,
tokenizing the line obtained by joining c and args with single spaces
yields the same command and the same argument tokens. -/
theorem tokenize_idempotent_normalized (s c : List Char) (args : List (List Char))
    (h : tokenizeL s = (c, args)) :
    tokenizeL (joinSp (c :: args)) = (c, args) := by
  rw [tokenizeL_shape] at h
  rw [Prod.mk.injEq] at h
  obtain ⟨hc, hargs⟩ := h
  have hargsEq : splitWs (trimChars ((trimChars s).drop
      (((trimChars s).take (firstSpaceIdx (trimChars s))).length))) = args := by
    rw [← hargs]
    exact (map_eq_self_of (fun a ha => trim_of_all_nonws ((splitWs_chunks _ a ha).2))).symm
  have hargsP : ∀ a ∈ args, a ≠ [] ∧ ∀ ch ∈ a, wsChar ch = false := by
    rw [← hargsEq]; exact splitWs_chunks _
  cases hts : trimChars s with
  | nil =>
    rw [hts] at hc hargsEq
    simp [firstSpaceIdx] at hc
    rw [List.drop_nil] at hargsEq
    simp [trimChars, splitWs, splitWsAux, List.dropWhile] at hargsEq
    subst hc
    subst hargsEq
    rfl
  | cons x xs =>
    rw [hts] at hc hargsEq
    have hx : wsChar x = false := trim_head_not_ws hts
    have hcSpace : ∀ ch ∈ c, ch ≠ ' ' := by
      rw [← hc]; exact take_firstSpaceIdx_no_space (x :: xs)
    have hxs : x ≠ ' ' := fun he => by rw [he] at hx; simp [wsChar] at hx
    have hfsx : firstSpaceIdx (x :: xs) = firstSpaceIdx xs + 1 := by
      simp [firstSpaceIdx, hxs]
    have hcx : c = x :: xs.take (firstSpaceIdx xs) := by
      rw [← hc, hfsx, List.take_succ_cons]
    apply tokenizeL_joinSp c args hcSpace ⟨x, xs.take (firstSpaceIdx xs), hcx, hx⟩ hargsP
    intro hnil
    -- with no argument tokens the command must be the whole trimmed line,
    -- whose ends carry no whitespace
    have hclen : c.length = firstSpaceIdx (x :: xs) := by
      rw [← hc, List.length_take]
      exact Nat.min_eq_left (firstSpaceIdx_le_length (x :: xs))
    have hieq : firstSpaceIdx (x :: xs) = (x :: xs).length := by
      by_contra hne
      have hlt : firstSpaceIdx (x :: xs) < (x :: xs).length :=
        Nat.lt_of_le_of_ne (firstSpaceIdx_le_length (x :: xs)) hne
      -- the dropped part is nonempty and ends in the non-whitespace last
      -- character of the trimmed line
      have hdropNe : (x :: xs).drop (firstSpaceIdx (x :: xs)) ≠ [] := by
        intro hdn
        have hlen := congrArg List.length hdn
        rw [List.length_drop, List.length_nil] at hlen
        omega
      obtain ⟨y, ys, hyrev⟩ : ∃ y ys, (x :: xs).reverse = y :: ys := by
        cases hr : (x :: xs).reverse with
        | nil => simp at hr
        | cons y ys => exact ⟨y, ys, rfl⟩
      have hy : wsChar y = false := by
        apply trim_rev_head_not_ws (l := s)
        rw [hts, hyrev]
      have hymem : y ∈ (x :: xs).drop (firstSpaceIdx (x :: xs)) := by
        have hta : (x :: xs).take (firstSpaceIdx (x :: xs)) ++
            (x :: xs).drop (firstSpaceIdx (x :: xs)) = x :: xs :=
          List.take_append_drop _ _
        have hrsplit : (x :: xs).reverse =
            ((x :: xs).drop (firstSpaceIdx (x :: xs))).reverse ++
              ((x :: xs).take (firstSpaceIdx (x :: xs))).reverse := by
          conv_lhs => rw [← hta]
          rw [List.reverse_append]
        cases hdr : ((x :: xs).drop (firstSpaceIdx (x :: xs))).reverse with
        | nil =>
          rw [List.reverse_eq_nil_iff] at hdr
          exact absurd hdr hdropNe
        | cons z zs =>
          rw [hdr, hyrev] at hrsplit
          have hz : y = z := by
            have := congrArg (fun l => l.head?) hrsplit
            simpa using this
          have : y ∈ ((x :: xs).drop (firstSpaceIdx (x :: xs))).reverse := by
            rw [hdr, hz]; exact List.mem_cons_self z zs
          exact List.mem_reverse.mp this
      -- hence the trimmed args string is nonempty, so splitWs cannot be empty
      have htdNe : trimChars ((x :: xs).drop (firstSpaceIdx (x :: xs))) ≠ [] := by
        intro htd
        rw [trim_eq_nil_iff] at htd
        rw [htd y hymem] at hy
        simp at hy
      obtain ⟨w, ws', hw⟩ : ∃ w ws',
          trimChars ((x :: xs).drop (firstSpaceIdx (x :: xs))) = w :: ws' := by
        cases htd : trimChars ((x :: xs).drop (firstSpaceIdx (x :: xs))) with
        | nil => exact absurd htd htdNe
        | cons w ws' => exact ⟨w, ws', rfl⟩
      have hwws : wsChar w = false := trim_head_not_ws hw
      rw [hc, hclen, hw] at hargsEq
      unfold splitWs at hargsEq
      rw [splitWsAux_nonws _ _ hwws] at hargsEq
      rw [hnil] at hargsEq
      exact splitWsAux_acc_ne_nil ws' w [] hargsEq
    have hct : c = x :: xs := by
      rw [← hc, hieq, List.take_length]
    rw [hct, ← hts, trim_idem, hts]

/-! ### Step lemmas for the dispatch loop -/

theorem run_step_promptErr {st : Cmd} {e : IoError} (fuel : Nat)
    (hw : Sink.write st.stdout "(cmd) " = .error e) :
    run (fuel + 1) st = (st, .err e, [.ioFail .promptWrite e]) := by
  simp only [run, hw]

theorem run_step_flushErr {st : Cmd} {sk : Sink} {e : IoError} (fuel : Nat)
    (hw : Sink.write st.stdout "(cmd) " = .ok sk)
    (hf : Sink.flush sk = .error e) :
    run (fuel + 1) st = ({ st with stdout := sk }, .err e, [.prompted, .ioFail .flushOp e]) := by
  simp only [run, hw, hf]

theorem run_step_readErr {st : Cmd} {sk sk2 : Sink} {e : IoError}
    {rest : List (Except IoError String)} (fuel : Nat)
    (hw : Sink.write st.stdout "(cmd) " = .ok sk)
    (hf : Sink.flush sk = .ok sk2)
    (hr : readLine st.stdin = (.error e, rest)) :
    run (fuel + 1) st = ({ st with stdout := sk2, stdin := rest }, .err e,
      [.prompted, .flushed, .ioFail .readOp e]) := by
  simp only [run, hw, hf, hr]

theorem run_step_empty {st : Cmd} {sk sk2 : Sink} {raw : String}
    {rest : List (Except IoError String)} (fuel : Nat)
    (hw : Sink.write st.stdout "(cmd) " = .ok sk)
    (hf : Sink.flush sk = .ok sk2)
    (hr : readLine st.stdin = (.ok raw, rest))
    (he : trimS raw = "") :
    run (fuel + 1) st =
      ((run fuel { st with stdout := sk2, stdin := rest }).1,
       (run fuel { st with stdout := sk2, stdin := rest }).2.1,
       .prompted :: .flushed :: .readLn raw :: .emptyLn ::
         (run fuel { st with stdout := sk2, stdin := rest }).2.2) := by
  simp only [run, hw, hf, hr, he, if_pos]

theorem run_step_break {st : Cmd} {sk sk2 sk3 : Sink} {raw : String}
    {rest : List (Except IoError String)} {handler : Handler} (fuel : Nat)
    (hw : Sink.write st.stdout "(cmd) " = .ok sk)
    (hf : Sink.flush sk = .ok sk2)
    (hr : readLine st.stdin = (.ok raw, rest))
    (he : ¬ trimS raw = "")
    (hl : lookupH st.handles (parse_cmd (trimS raw)).1 = some handler)
    (hx : handler sk2 (split_args (parse_cmd (trimS raw)).2) = (sk3, .Break)) :
    run (fuel + 1) st = ({ st with stdout := sk3, stdin := rest }, .ok,
      [.prompted, .flushed, .readLn raw,
        .invoked (parse_cmd (trimS raw)).1 .Break]) := by
  simp only [run, hw, hf, hr, he, if_neg, hl, hx]
  simp

theorem run_step_continue {st : Cmd} {sk sk2 sk3 : Sink} {raw : String}
    {rest : List (Except IoError String)} {handler : Handler} (fuel : Nat)
    (hw : Sink.write st.stdout "(cmd) " = .ok sk)
    (hf : Sink.flush sk = .ok sk2)
    (hr : readLine st.stdin = (.ok raw, rest))
    (he : ¬ trimS raw = "")
    (hl : lookupH st.handles (parse_cmd (trimS raw)).1 = some handler)
    (hx : handler sk2 (split_args (parse_cmd (trimS raw)).2) = (sk3, .Continue)) :
    run (fuel + 1) st =
      ((run fuel { st with stdout := sk3, stdin := rest }).1,
       (run fuel { st with stdout := sk3, stdin := rest }).2.1,
       .prompted :: .flushed :: .readLn raw ::
         .invoked (parse_cmd (trimS raw)).1 .Continue ::
         (run fuel { st with stdout := sk3, stdin := rest }).2.2) := by
  simp only [run, hw, hf, hr, he, if_neg, hl, hx]
  simp

theorem run_step_diagErr {st : Cmd} {sk sk2 : Sink} {raw : String} {e : IoError}
    {rest : List (Except IoError String)} (fuel : Nat)
    (hw : Sink.write st.stdout "(cmd) " = .ok sk)
    (hf : Sink.flush sk = .ok sk2)
    (hr : readLine st.stdin = (.ok raw, rest))
    (he : ¬ trimS raw = "")
    (hl : lookupH st.handles (parse_cmd (trimS raw)).1 = none)
    (hd : Sink.write sk2 ("No command " ++ (parse_cmd (trimS raw)).1 ++ "\n") = .error e) :
    run (fuel + 1) st = ({ st with stdout := sk2, stdin := rest }, .err e,
      [.prompted, .flushed, .readLn raw, .ioFail .diagWrite e]) := by
  simp only [run, hw, hf, hr, he, if_neg, hl, hd]
  simp

theorem run_step_noCmd {st : Cmd} {sk sk2 sk3 : Sink} {raw : String}
    {rest : List (Except IoError String)} (fuel : Nat)
    (hw : Sink.write st.stdout "(cmd) " = .ok sk)
    (hf : Sink.flush sk = .ok sk2)
    (hr : readLine st.stdin = (.ok raw, rest))
    (he : ¬ trimS raw = "")
    (hl : lookupH st.handles (parse_cmd (trimS raw)).1 = none)
    (hd : Sink.write sk2 ("No command " ++ (parse_cmd (trimS raw)).1 ++ "\n") = .ok sk3) :
    run (fuel + 1) st =
      ((run fuel { st with stdout := sk3, stdin := rest }).1,
       (run fuel { st with stdout := sk3, stdin := rest }).2.1,
       .prompted :: .flushed :: .readLn raw ::
         .noCmd (parse_cmd (trimS raw)).1 ::
         (run fuel { st with stdout := sk3, stdin := rest }).2.2) := by
  simp only [run, hw, hf, hr, he, if_neg, hl, hd]
  simp

/-- Claim C7: run returns success only through a handler's Break signal
(the terminating event of a successful run is a handler invocation that
returned Break; an empty line or an unknown command therefore never
terminates the loop), and run returns an error only when one of the
loop's own I/O operations — the prompt write, the flush, the read, or
the unknown-command diagnostic write — failed, the failing operation
being the terminating event. -/
theorem run_termination_modes (fuel : Nat) (st : Cmd) :
    (∀ st' evs, run fuel st = (st', RunResult.ok, evs) →
      ∃ pre c, evs = pre ++ [Ev.invoked c CommandResult.Break]) ∧
    (∀ st' e evs, run fuel st = (st', RunResult.err e, evs) →
      ∃ pre op, evs = pre ++ [Ev.ioFail op e]) := by
  induction fuel generalizing st with
  | zero =>
    constructor
    · intro st' evs h
      simp [run] at h
    · intro st' e evs h
      simp [run] at h
  | succ fuel ih =>
    constructor
    · intro st' evs h
      cases hw : Sink.write st.stdout "(cmd) " with
      | error e0 =>
        rw [run_step_promptErr fuel hw] at h
        simp at h
      | ok sk =>
        cases hf : Sink.flush sk with
        | error e0 =>
          rw [run_step_flushErr fuel hw hf] at h
          simp at h
        | ok sk2 =>
          cases hrl : readLine st.stdin with
          | mk r rest =>
            cases r with
            | error e0 =>
              rw [run_step_readErr fuel hw hf hrl] at h
              simp at h
            | ok raw =>
              by_cases he : trimS raw = ""
              · rw [run_step_empty fuel hw hf hrl he] at h
                have h2 := congrArg (fun p => p.2.1) h
                have h3 := congrArg (fun p => p.2.2) h
                simp only at h2 h3
                obtain ⟨pre, c, hpc⟩ :=
                  (ih { st with stdout := sk2, stdin := rest }).1
                    (run fuel { st with stdout := sk2, stdin := rest }).1
                    (run fuel { st with stdout := sk2, stdin := rest }).2.2
                    (by rw [← h2])
                refine ⟨.prompted :: .flushed :: .readLn raw :: .emptyLn :: pre, c, ?_⟩
                rw [← h3, hpc]
                simp
              · cases hl : lookupH st.handles (parse_cmd (trimS raw)).1 with
                | some handler =>
                  cases hx : handler sk2 (split_args (parse_cmd (trimS raw)).2) with
                  | mk sk3 sig =>
                    cases sig with
                    | Break =>
                      rw [run_step_break fuel hw hf hrl he hl hx] at h
                      have h3 := congrArg (fun p => p.2.2) h
                      simp only at h3
                      exact ⟨[.prompted, .flushed, .readLn raw],
                        (parse_cmd (trimS raw)).1, h3.symm⟩
                    | Continue =>
                      rw [run_step_continue fuel hw hf hrl he hl hx] at h
                      have h2 := congrArg (fun p => p.2.1) h
                      have h3 := congrArg (fun p => p.2.2) h
                      simp only at h2 h3
                      obtain ⟨pre, c, hpc⟩ :=
                        (ih { st with stdout := sk3, stdin := rest }).1
                          (run fuel { st with stdout := sk3, stdin := rest }).1
                          (run fuel { st with stdout := sk3, stdin := rest }).2.2
                          (by rw [← h2])
                      refine ⟨.prompted :: .flushed :: .readLn raw ::
                        .invoked (parse_cmd (trimS raw)).1 .Continue :: pre, c, ?_⟩
                      rw [← h3, hpc]
                      simp
                | none =>
                  cases hd : Sink.write sk2 ("No command " ++ (parse_cmd (trimS raw)).1 ++ "\n") with
                  | error e0 =>
                    rw [run_step_diagErr fuel hw hf hrl he hl hd] at h
                    simp at h
                  | ok sk3 =>
                    rw [run_step_noCmd fuel hw hf hrl he hl hd] at h
                    have h2 := congrArg (fun p => p.2.1) h
                    have h3 := congrArg (fun p => p.2.2) h
                    simp only at h2 h3
                    obtain ⟨pre, c, hpc⟩ :=
                      (ih { st with stdout := sk3, stdin := rest }).1
                        (run fuel { st with stdout := sk3, stdin := rest }).1
                        (run fuel { st with stdout := sk3, stdin := rest }).2.2
                        (by rw [← h2])
                    refine ⟨.prompted :: .flushed :: .readLn raw ::
                      .noCmd (parse_cmd (trimS raw)).1 :: pre, c, ?_⟩
                    rw [← h3, hpc]
                    simp
    · intro st' e evs h
      cases hw : Sink.write st.stdout "(cmd) " with
      | error e0 =>
        rw [run_step_promptErr fuel hw] at h
        have h2 := congrArg (fun p => p.2.1) h
        have h3 := congrArg (fun p => p.2.2) h
        simp only [RunResult.err.injEq] at h2 h3
        exact ⟨[], .promptWrite, by rw [← h3, h2]; rfl⟩
      | ok sk =>
        cases hf : Sink.flush sk with
        | error e0 =>
          rw [run_step_flushErr fuel hw hf] at h
          have h2 := congrArg (fun p => p.2.1) h
          have h3 := congrArg (fun p => p.2.2) h
          simp only [RunResult.err.injEq] at h2 h3
          exact ⟨[.prompted], .flushOp, by rw [← h3, h2]; rfl⟩
        | ok sk2 =>
          cases hrl : readLine st.stdin with
          | mk r rest =>
            cases r with
            | error e0 =>
              rw [run_step_readErr fuel hw hf hrl] at h
              have h2 := congrArg (fun p => p.2.1) h
              have h3 := congrArg (fun p => p.2.2) h
              simp only [RunResult.err.injEq] at h2 h3
              exact ⟨[.prompted, .flushed], .readOp, by rw [← h3, h2]; rfl⟩
            | ok raw =>
              by_cases he : trimS raw = ""
              · rw [run_step_empty fuel hw hf hrl he] at h
                have h2 := congrArg (fun p => p.2.1) h
                have h3 := congrArg (fun p => p.2.2) h
                simp only at h2 h3
                obtain ⟨pre, op, hpc⟩ :=
                  (ih { st with stdout := sk2, stdin := rest }).2
                    (run fuel { st with stdout := sk2, stdin := rest }).1 e
                    (run fuel { st with stdout := sk2, stdin := rest }).2.2
                    (by rw [← h2])
                refine ⟨.prompted :: .flushed :: .readLn raw :: .emptyLn :: pre, op, ?_⟩
                rw [← h3, hpc]
                simp
              · cases hl : lookupH st.handles (parse_cmd (trimS raw)).1 with
                | some handler =>
                  cases hx : handler sk2 (split_args (parse_cmd (trimS raw)).2) with
                  | mk sk3 sig =>
                    cases sig with
                    | Break =>
                      rw [run_step_break fuel hw hf hrl he hl hx] at h
                      simp at h
                    | Continue =>
                      rw [run_step_continue fuel hw hf hrl he hl hx] at h
                      have h2 := congrArg (fun p => p.2.1) h
                      have h3 := congrArg (fun p => p.2.2) h
                      simp only at h2 h3
                      obtain ⟨pre, op, hpc⟩ :=
                        (ih { st with stdout := sk3, stdin := rest }).2
                          (run fuel { st with stdout := sk3, stdin := rest }).1 e
                          (run fuel { st with stdout := sk3, stdin := rest }).2.2
                          (by rw [← h2])
                      refine ⟨.prompted :: .flushed :: .readLn raw ::
                        .invoked (parse_cmd (trimS raw)).1 .Continue :: pre, op, ?_⟩
                      rw [← h3, hpc]
                      simp
                | none =>
                  cases hd : Sink.write sk2 ("No command " ++ (parse_cmd (trimS raw)).1 ++ "\n") with
                  | error e0 =>
                    rw [run_step_diagErr fuel hw hf hrl he hl hd] at h
                    have h2 := congrArg (fun p => p.2.1) h
                    have h3 := congrArg (fun p => p.2.2) h
                    simp only [RunResult.err.injEq] at h2 h3
                    exact ⟨[.prompted, .flushed, .readLn raw], .diagWrite,
                      by rw [← h3, h2]; rfl⟩
                  | ok sk3 =>
                    rw [run_step_noCmd fuel hw hf hrl he hl hd] at h
                    have h2 := congrArg (fun p => p.2.1) h
                    have h3 := congrArg (fun p => p.2.2) h
                    simp only at h2 h3
                    obtain ⟨pre, op, hpc⟩ :=
                      (ih { st with stdout := sk3, stdin := rest }).2
                        (run fuel { st with stdout := sk3, stdin := rest }).1 e
                        (run fuel { st with stdout := sk3, stdin := rest }).2.2
                        (by rw [← h2])
                    refine ⟨.prompted :: .flushed :: .readLn raw ::
                      .noCmd (parse_cmd (trimS raw)).1 :: pre, op, ?_⟩
                    rw [← h3, hpc]
                    simp

/-! ### Remaining helper lemmas -/

theorem Sink.write_ok_buf {s sk : Sink} {t : String}
    (h : Sink.write s t = .ok sk) : sk.buf = s.buf ++ t := by
  unfold Sink.write at h
  cases hwe : s.writeErr t with
  | some e => rw [hwe] at h; simp at h
  | none =>
    rw [hwe] at h
    simp only [Except.ok.injEq] at h
    rw [← h]

theorem Sink.flush_ok_eq {s sk : Sink} (h : Sink.flush s = .ok sk) : sk = s := by
  unfold Sink.flush at h
  cases hfe : s.flushErr with
  | some e => rw [hfe] at h; simp at h
  | none =>
    rw [hfe] at h
    simp only [Except.ok.injEq] at h
    exact h.symm

theorem split_argsL_chunks (x : List Char) :
    ∀ t ∈ split_argsL x, t ≠ [] ∧ ∀ ch ∈ t, wsChar ch = false := by
  intro t ht
  unfold split_argsL at ht
  rw [map_eq_self_of (fun a ha => trim_of_all_nonws ((splitWs_chunks x a ha).2))] at ht
  exact splitWs_chunks x t ht

/-! ### Claim theorems -/

/-- Claim C1: registering a second handler under an already-present
name leaves the first handler active: a subsequent lookup of that name
returns a handler whose execution behaviour — its sink writes and its
returned signal — is that of the originally registered handler. -/
theorem add_cmd_keeps_first_handler (st : Cmd) (name : String)
    (h0 hNew : Handler) (h : lookupH st.handles name = some h0) :
    ∃ h1, lookupH (add_cmd st name hNew).1.handles name = some h1 ∧
      ∀ sk args, h1 sk args = h0 sk args := by
  have hgoal : (add_cmd st name hNew).1.handles = st.handles := by
    unfold add_cmd
    rw [h]
    cases Sink.write st.stdout
      ("Warning: Command with handle " ++ name ++ " already exists.") <;> rfl
  exact ⟨h0, by rw [hgoal]; exact h, fun _ _ => rfl⟩

theorem add_cmd_keeps_first_handler_witness :
    ∃ h1, lookupH (add_cmd regState "greet" shoutHandler).1.handles "greet" = some h1 ∧
      ∀ sk args, h1 sk args = greetHandler sk args :=
  add_cmd_keeps_first_handler regState "greet" greetHandler shoutHandler rfl

/-- Claim C2: add_cmd inserts the handler and succeeds when the name is
unused; on a used name it writes exactly
"Warning: Command with handle NAME already exists." to the sink, leaves
the registry unchanged, and still returns success; it returns an error
exactly when that diagnostic write fails, in which case the state is
untouched. -/
theorem add_cmd_contract (st : Cmd) (name : String) (handler : Handler) :
    (lookupH st.handles name = none →
      add_cmd st name handler =
        ({ st with handles := st.handles ++ [(name, handler)] }, .ok ())) ∧
    (∀ h0, lookupH st.handles name = some h0 →
      (∀ sk, Sink.write st.stdout
          ("Warning: Command with handle " ++ name ++ " already exists.") = .ok sk →
        add_cmd st name handler = ({ st with stdout := sk }, .ok ()) ∧
          sk.buf = st.stdout.buf ++
            ("Warning: Command with handle " ++ name ++ " already exists.")) ∧
      (∀ e, Sink.write st.stdout
          ("Warning: Command with handle " ++ name ++ " already exists.") = .error e →
        add_cmd st name handler = (st, .error e))) := by
  constructor
  · intro hn
    unfold add_cmd
    rw [hn]
  · intro h0 hs
    constructor
    · intro sk hw
      refine ⟨?_, Sink.write_ok_buf hw⟩
      unfold add_cmd
      rw [hs, hw]
    · intro e hw
      unfold add_cmd
      rw [hs, hw]

theorem add_cmd_contract_witness :
    add_cmd regStateFail "greet" shoutHandler = (regStateFail, .error errWrite) ∧
    add_cmd regState "bogus" shoutHandler =
      ({ regState with handles := regState.handles ++ [("bogus", shoutHandler)] }, .ok ()) :=
  ⟨((add_cmd_contract regStateFail "greet" shoutHandler).2 greetHandler rfl).2 errWrite rfl,
   (add_cmd_contract regState "bogus" shoutHandler).1 rfl⟩

/-- Claim C10: whenever add_cmd returns an error (the duplicate-name
diagnostic write failed), the registry mapping is exactly what it was
before the call: no handler has been inserted, removed or replaced. -/
theorem add_cmd_error_atomic (st : Cmd) (name : String) (handler : Handler)
    (e : IoError) (h : (add_cmd st name handler).2 = .error e) :
    (add_cmd st name handler).1.handles = st.handles := by
  unfold add_cmd at h ⊢
  cases hl : lookupH st.handles name with
  | none =>
    rw [hl] at h
    simp at h
  | some h0 =>
    cases hw : Sink.write st.stdout
        ("Warning: Command with handle " ++ name ++ " already exists.") <;> rfl

theorem add_cmd_error_atomic_witness :
    (add_cmd regStateFail "greet" shoutHandler).1.handles = regStateFail.handles :=
  add_cmd_error_atomic regStateFail "greet" shoutHandler errWrite rfl

/-- Claim C4: with input lines greet, bogus, quit and a registry where
greet writes "Hello there!" and continues and quit stops, run returns
success and the recorded output is exactly
"(cmd) Hello there!(cmd) No command bogus\n(cmd) ". -/
theorem run_greet_bogus_quit :
    (run 5 c4State).1.stdout.buf =
      "(cmd) Hello there!(cmd) No command bogus\n(cmd) " ∧
    (run 5 c4State).2.1 = RunResult.ok :=
  ⟨rfl, rfl⟩

/-- Claim C6: when the input source errors on the first read, run
returns that exact error value — kind and message untouched, no
wrapping — and the only bytes written to the sink beyond its prior
contents are the initial prompt "(cmd) ". -/
theorem run_first_read_error (fuel : Nat) (st : Cmd) (e : IoError)
    (rest : List (Except IoError String)) (sk sk2 : Sink)
    (hin : st.stdin = .error e :: rest)
    (hw : Sink.write st.stdout "(cmd) " = .ok sk)
    (hf : Sink.flush sk = .ok sk2) :
    run (fuel + 1) st = ({ st with stdout := sk2, stdin := rest }, .err e,
      [.prompted, .flushed, .ioFail .readOp e]) ∧
    sk2.buf = st.stdout.buf ++ "(cmd) " := by
  constructor
  · exact run_step_readErr fuel hw hf (by rw [hin]; rfl)
  · rw [Sink.flush_ok_eq hf]
    exact Sink.write_ok_buf hw

theorem run_first_read_error_witness :
    run 1 readErrState = ({ readErrState with
        stdout := { okSink with buf := "(cmd) " }, stdin := [] }, .err errRead,
      [.prompted, .flushed, .ioFail .readOp errRead]) ∧
    ({ okSink with buf := "(cmd) " } : Sink).buf =
      readErrState.stdout.buf ++ "(cmd) " :=
  run_first_read_error 0 readErrState errRead []
    { okSink with buf := "(cmd) " } { okSink with buf := "(cmd) " } rfl rfl rfl

/-- Claim C3 is false on the code.  The claim quantifies over every
handler the loop invokes, but CommandHandler::execute returns only a
CommandResult, so a handler that checks its write result and continues
— ignoreErrGreet, a legal implementation of the trait — refutes it:
its own write to the sink fails, yet run returns success, the loop
does not halt at that point (a second prompt is written afterwards),
and no I/O error reaches the caller.  The failed write is exhibited by
the last conjunct: the exact write the handler attempts on the sink it
is handed returns the error.  (The repository's own Greeting handler
would instead panic at its unwrap there — also not the claimed
propagation of the error as run's I/O result.) -/
theorem handler_write_failure_not_propagated :
    (run 5 c3State).2.1 = RunResult.ok ∧
    (run 5 c3State).1.stdout.buf = "(cmd) (cmd) " ∧
    Sink.write { helloFailSink with buf := "(cmd) " } "Hello there!" =
      .error errWrite :=
  ⟨rfl, rfl, rfl⟩

/-- Claim C3 (amended): a handler cannot surface a write failure
through run, because CommandHandler::execute returns only a
Continue/Break signal with no error channel; once the loop's own
prompt write, flush and read have succeeded and a registered handler
is invoked, the outcome of the iteration is determined solely by the
returned signal — Break ends run with success, Continue loops — and
never by whether the handler's writes succeeded.  Run's errors come
only from the loop's own I/O. -/
theorem run_handler_signal_decides (fuel : Nat) (st : Cmd)
    (sk sk2 sk3 : Sink) (raw : String) (rest : List (Except IoError String))
    (handler : Handler) (sig : CommandResult)
    (hw : Sink.write st.stdout "(cmd) " = .ok sk)
    (hf : Sink.flush sk = .ok sk2)
    (hr : readLine st.stdin = (.ok raw, rest))
    (he : ¬ trimS raw = "")
    (hl : lookupH st.handles (parse_cmd (trimS raw)).1 = some handler)
    (hx : handler sk2 (split_args (parse_cmd (trimS raw)).2) = (sk3, sig)) :
    (sig = CommandResult.Break →
      run (fuel + 1) st = ({ st with stdout := sk3, stdin := rest }, RunResult.ok,
        [.prompted, .flushed, .readLn raw,
          .invoked (parse_cmd (trimS raw)).1 .Break])) ∧
    (sig = CommandResult.Continue →
      run (fuel + 1) st =
        ((run fuel { st with stdout := sk3, stdin := rest }).1,
         (run fuel { st with stdout := sk3, stdin := rest }).2.1,
         .prompted :: .flushed :: .readLn raw ::
           .invoked (parse_cmd (trimS raw)).1 .Continue ::
           (run fuel { st with stdout := sk3, stdin := rest }).2.2)) := by
  constructor
  · intro hs
    subst hs
    exact run_step_break fuel hw hf hr he hl hx
  · intro hs
    subst hs
    exact run_step_continue fuel hw hf hr he hl hx

theorem run_handler_signal_decides_witness :
    run 1 c3State = ((run 0 c3StateAfter).1, (run 0 c3StateAfter).2.1,
      Ev.prompted :: Ev.flushed :: Ev.readLn "greet\n" ::
        Ev.invoked (parse_cmd (trimS "greet\n")).1 CommandResult.Continue ::
        (run 0 c3StateAfter).2.2) :=
  (run_handler_signal_decides 0 c3State
    c3SinkAfter c3SinkAfter c3SinkAfter "greet\n" [.ok "quit\n"]
    ignoreErrGreet CommandResult.Continue rfl rfl rfl (by decide) rfl rfl).2 rfl

/-- Claim C5 is false on the code: a tab does not separate the command
from the arguments, because parse_cmd cuts at the first space character
only (line.find of a space).  Tokenizing "foo\tbar" yields the single
command token "foo\tbar" with no arguments — a produced token that
contains a whitespace character, contradicting both the claimed
space-or-tab splitting (which would give command "foo", args ["bar"])
and the claim that every produced token is a maximal run of
non-whitespace characters. -/
theorem tokenizer_tab_not_separator :
    tokenizeL ("foo\tbar".data) = ("foo\tbar".data, []) ∧
    '\t' ∈ (tokenizeL ("foo\tbar".data)).1 ∧ wsChar '\t' = true :=
  ⟨rfl, by decide, rfl⟩

/-- Claim C5 (amended): the command token is the prefix of the trimmed
line up to the first space character — only a space, not a tab,
delimits the command, so the command token never contains a space but
may contain other whitespace; the argument portion is then split on
runs of whitespace with consecutive separators collapsed, so every
argument token is a nonempty maximal run of non-whitespace characters.
Tokenizing "  foo   bar  baz " yields ("foo", ["bar", "baz"]), and an
empty or whitespace-only line yields ("", []). -/
theorem tokenizer_space_split_contract :
    tokenizeL ("  foo   bar  baz ".data) = ("foo".data, ["bar".data, "baz".data]) ∧
    (∀ s : List Char, trimChars s = [] → tokenizeL s = ([], [])) ∧
    (∀ s : List Char, ∀ ch ∈ (tokenizeL s).1, ch ≠ ' ') ∧
    (∀ s : List Char, ∀ t ∈ (tokenizeL s).2, t ≠ [] ∧ ∀ ch ∈ t, wsChar ch = false) := by
  refine ⟨rfl, ?_, ?_, ?_⟩
  · intro s h
    rw [tokenizeL_shape, h]
    rfl
  · intro s ch hch
    exact take_firstSpaceIdx_no_space (trimChars s) ch hch
  · intro s t ht
    exact split_argsL_chunks _ t ht

theorem tokenizer_space_split_contract_witness :
    tokenizeL ("   ".data) = ([], []) ∧
    ("bar".data ≠ [] ∧ ∀ ch ∈ ("bar".data), wsChar ch = false) :=
  ⟨tokenizer_space_split_contract.2.1 ("   ".data) (by decide),
   tokenizer_space_split_contract.2.2.2 ("cmd bar".data) ("bar".data) (by decide)⟩

/-- Claim C8: the tokenizer is a total pure function — a plain Lean
function of the input string, defined for every input including the
empty string, always returning a (command, args) pair; in particular
the index at which the source slices the line (the first space, or the
length) is always within bounds, so the source's slicing cannot
panic. -/
theorem tokenize_total (s : String) :
    ∃ c a, tokenize s = (c, a) ∧
      firstSpaceIdx (trimChars s.data) ≤ (trimChars s.data).length :=
  ⟨(tokenize s).1, (tokenize s).2, rfl, firstSpaceIdx_le_length _⟩

theorem run_termination_modes_witness :
    ∃ pre c, (run 5 c4State).2.2 = pre ++ [Ev.invoked c CommandResult.Break] :=
  (run_termination_modes 5 c4State).1 (run 5 c4State).1 (run 5 c4State).2.2 rfl

theorem tokenize_idempotent_normalized_witness :
    tokenizeL (joinSp ("foo".data :: ["bar".data, "baz".data])) =
      ("foo".data, ["bar".data, "baz".data]) :=
  tokenize_idempotent_normalized ("  foo   bar  baz ".data) ("foo".data)
    (["bar".data, "baz".data]) (by decide)
